import Mathlib

/-!
Shallow embedding of the order risk-check gate and the portfolio aggregation
logic of `src/server.py` (an MCP adapter over a brokerage API).

Modelling conventions:
* Python floats that hold prices and monetary amounts are modelled as `Rat`
  (the arithmetic in the source is plain `+`, `-`, `*`, `/`, comparison).
* The brokerage client is modelled as an explicit oracle
  `fetch : String → Option Rat` giving the snapshot's last-trade price
  (`none` models a snapshot with no `latest_trade` attribute).
* Each `return` statement of `place_order` becomes one constructor of
  `POResult`, carrying the exact text the source builds there; the external
  calls made during the run (`get_snapshot`, `submit_order`) are recorded in
  an effect trace so that "no price fetch happened" is a statement about the
  trace.
* Module-level configuration (`ALLOWED_SYMBOLS`, `MAX_POSITION_SIZE`,
  `MAX_POSITION_VALUE`) is passed as explicit parameters.
-/

namespace AlpacaMCP

/-- `str.upper()` on a Python string, per character (tickers are ASCII). -/
def upper (s : String) : String := String.mk (s.data.map Char.toUpper)

/-- `str.lower()` on a Python string, per character. -/
def lower (s : String) : String := String.mk (s.data.map Char.toLower)

/-- `str.strip()`: drop whitespace from both ends. -/
def strip (s : String) : String :=
  String.mk
    (((s.data.dropWhile Char.isWhitespace).reverse.dropWhile
      Char.isWhitespace).reverse)

/-- Substring test on character lists: does `needle` occur contiguously in
the second list?  (Used to state "error string containing ...".) -/
def listContains (needle : List Char) : List Char → Bool
  | [] => needle.isEmpty
  | c :: rest => needle.isPrefixOf (c :: rest) || listContains needle rest

/-- `needle in hay` on strings (Python's `in` operator for substrings). -/
def strContains (hay needle : String) : Bool :=
  listContains needle.data hay.data

/-- Insert a comma after every third character (input is the reversed digit
string of the integer part; mirrors the thousands grouping of `{:,.2f}`). -/
def group3 : List Char → List Char
  | a :: b :: c :: d :: rest => a :: b :: c :: ',' :: group3 (d :: rest)
  | l => l

/-- Decimal digits of `n` with thousands separators. -/
def commaSep (n : Nat) : String :=
  String.mk ((group3 (toString n).toList.reverse).reverse)

/-- Python `f"{q:,.2f}"`: two decimal places, thousands separators.  The
source formats binary floats; in this `Rat` model rounding is to the nearest
cent (ties up), which agrees on the amounts the claims mention. -/
def fmtMoney (q : Rat) : String :=
  let cents : Nat := (⌊|q| * 100 + 1/2⌋).toNat
  (if q < 0 then "-" else "") ++ commaSep (cents / 100) ++ "." ++
    (if cents % 100 < 10 then "0" else "") ++ toString (cents % 100)

/-- Python `f"{q:+.2f}"`: explicit sign, two decimal places, no grouping. -/
def fmtSigned (q : Rat) : String :=
  let cents : Nat := (⌊|q| * 100 + 1/2⌋).toNat
  (if q < 0 then "-" else "+") ++ toString (cents / 100) ++ "." ++
    (if cents % 100 < 10 then "0" else "") ++ toString (cents % 100)

/-- `load_allowed_symbols` (src/server.py:98-106).  The file system is
modelled as `none` (FileNotFoundError) or `some lines`.  The Python set
comprehension `{line.strip().upper() for line in f if line.strip()}` becomes
filter-map-dedup; only membership and emptiness of the result are used. -/
def load_allowed_symbols (file : Option (List String)) : List String :=
  match file with
  | none => []
  | some lines =>
      (((lines.filter (fun l => strip l ≠ "")).map
        (fun l => upper (strip l)))).dedup

/-- `validate_symbol` (src/server.py:112-115): an empty allow-list admits
every symbol, otherwise membership of the uppercased symbol decides. -/
def validate_symbol (ALLOWED_SYMBOLS : List String) (symbol : String) : Bool :=
  if ALLOWED_SYMBOLS.isEmpty then true
  else ALLOWED_SYMBOLS.contains (upper symbol)

/-- One open position as built by `get_positions` / consumed by
`analyze_portfolio` (src/server.py:248-258). -/
structure Position where
  symbol : String
  qty : Int
  current_price : Rat
  market_value : Rat
  unrealized_pl : Rat
  unrealized_plpc : Rat
deriving DecidableEq

/-- The numeric fields of a position, without the symbol string. -/
def numericFields (p : Position) : Int × Rat × Rat × Rat × Rat :=
  (p.qty, p.current_price, p.market_value, p.unrealized_pl, p.unrealized_plpc)

/-- The aggregate quantities computed by `analyze_portfolio`
(src/server.py:344-355). -/
structure PortfolioSummary where
  total_value : Rat
  total_pnl : Rat
  invested : Rat
  total_pnl_pct : Rat
  winners : Nat
  losers : Nat
deriving DecidableEq

/-- The aggregation arithmetic of `analyze_portfolio`
(src/server.py:344-355), line for line. -/
def summarize (positions : List Position) : PortfolioSummary :=
  let values := positions.map (fun p => p.market_value)
  let pnl := positions.map (fun p => p.unrealized_pl)
  let total_value := values.sum
  let total_pnl := pnl.sum
  let invested := total_value - total_pnl
  let total_pnl_pct := if invested > 0 then total_pnl / invested * 100 else 0
  let winners := (pnl.filter (fun x => x > 0)).length
  let losers := (pnl.filter (fun x => x < 0)).length
  ⟨total_value, total_pnl, invested, total_pnl_pct, winners, losers⟩

/-- The text report of `analyze_portfolio` (src/server.py:337-372):
early return `"No open positions."` on an empty list, otherwise the header
lines followed by one line per position. -/
def analyze_portfolio (positions : List Position) : String :=
  if positions.isEmpty then "No open positions."
  else
    let s := summarize positions
    let header := ["Portfolio summary:", "",
      "Total value: $" ++ fmtMoney s.total_value,
      "Total P&L:   $" ++ fmtMoney s.total_pnl ++ " (" ++
        fmtSigned s.total_pnl_pct ++ "%)",
      "Positions:   " ++ toString positions.length ++ " (winners: " ++
        toString s.winners ++ ", losers: " ++ toString s.losers ++ ")",
      "", "Per-position:"]
    let perPos := positions.map (fun p =>
      "- " ++ p.symbol ++ ": value=$" ++ fmtMoney p.market_value ++
        ", P&L=$" ++ fmtMoney p.unrealized_pl ++ " (" ++
        fmtSigned (p.unrealized_plpc * 100) ++ "%)")
    String.intercalate "\n" (header ++ perPos)

/-- The external calls `place_order` can make, in order. -/
inductive Effect where
  | getSnapshot (symbol : String)
  | submitOrder (symbol : String) (qty : Int) (side : String) (tif : String)
deriving DecidableEq

/-- The possible outcomes of `place_order`, one constructor per `return`
statement of src/server.py:264-325, each carrying the exact text returned
there.  (The JSON body of a successful submission echoes broker-assigned
fields such as `order_id`, so the `submitted` constructor records the
arguments passed to `submit_order` instead of a rendered string.) -/
inductive POResult where
  | notAllowed (msg : String)
  | qtyExceeded (msg : String)
  | priceUnavailable (msg : String)
  | notionalExceeded (msg : String)
  | submitted (symbol : String) (qty : Int) (side : String) (tif : String)
deriving DecidableEq

/-- Does this outcome come from the allow-list rejection branch? -/
def POResult.isNotAllowed : POResult → Bool
  | .notAllowed _ => true
  | _ => false

/-- `place_order` (src/server.py:264-325): uppercase the symbol, allow-list
check, quantity cap, snapshot fetch, Python-falsy price check
(`not price` catches both `None` and `0.0`), buy-only notional cap, then
submission.  Returns the outcome and the trace of external calls. -/
def place_order (ALLOWED_SYMBOLS : List String) (MAX_POSITION_SIZE : Int)
    (MAX_POSITION_VALUE : Rat) (fetch : String → Option Rat)
    (symbol : String) (qty : Int) (side : String) (time_in_force : String) :
    POResult × List Effect :=
  let symbol := upper symbol
  if validate_symbol ALLOWED_SYMBOLS symbol = false then
    (.notAllowed ("ERROR: " ++ symbol ++
      " is not in the allowed universe (risk check failed)."), [])
  else if qty > MAX_POSITION_SIZE then
    (.qtyExceeded ("ERROR: qty=" ++ toString qty ++
      " exceeds MAX_POSITION_SIZE=" ++ toString MAX_POSITION_SIZE), [])
  else
    let effs := [Effect.getSnapshot symbol]
    match fetch symbol with
    | none => (.priceUnavailable "ERROR: Could not fetch latest price", effs)
    | some p =>
      if p = 0 then
        (.priceUnavailable "ERROR: Could not fetch latest price", effs)
      else
        let notional : Rat := qty * p
        if lower side = "buy" ∧ notional > MAX_POSITION_VALUE then
          (.notionalExceeded ("ERROR: Order value $" ++ fmtMoney notional ++
            " exceeds MAX_POSITION_VALUE $" ++ fmtMoney MAX_POSITION_VALUE),
           effs)
        else
          (.submitted symbol qty (lower side) (lower time_in_force),
           effs ++ [Effect.submitOrder symbol qty (lower side)
             (lower time_in_force)])

/-- The two-position example portfolio of the specification:
values 1000 and 500, P&L +100 and -50 (other numeric fields arbitrary). -/
def examplePositions : List Position :=
  [⟨"GOOD", 10, 100, 1000, 100, 1/10⟩, ⟨"BAD", 10, 50, 500, -50, -1/20⟩]

/-! ### Helper lemmas -/

theorem charOfNat_toNat (n : Nat) (h : n < 55296) : (Char.ofNat n).toNat = n := by
  have hd : n < 55296 ∨ 57343 < n ∧ n < 1114112 := Or.inl h
  simp [Char.ofNat, Nat.isValidChar, Char.ofNatAux, Char.toNat, hd,
    UInt32.toNat, BitVec.toNat_ofNatLt]

theorem toUpper_idem (c : Char) : c.toUpper.toUpper = c.toUpper := by
  unfold Char.toUpper
  by_cases h : 97 ≤ c.toNat ∧ c.toNat ≤ 122
  · rw [if_pos h]
    have hv : (Char.ofNat (c.toNat - 32)).toNat = c.toNat - 32 :=
      charOfNat_toNat _ (by omega)
    rw [if_neg (by rw [hv]; omega)]
  · rw [if_neg h, if_neg h]

theorem upper_upper (s : String) : upper (upper s) = upper s := by
  have h : Char.toUpper ∘ Char.toUpper = Char.toUpper := funext toUpper_idem
  simp [upper, List.map_map, h]

theorem listContains_nil_needle (hay : List Char) : listContains [] hay = true := by
  cases hay <;> simp [listContains, List.isPrefixOf]

theorem isPrefixOf_self_append (l y : List Char) : l.isPrefixOf (l ++ y) = true := by
  induction l with
  | nil => simp [List.isPrefixOf]
  | cons c t ih => simp [List.isPrefixOf, ih]

theorem listContains_self (n y : List Char) : listContains n (n ++ y) = true := by
  cases n with
  | nil => exact listContains_nil_needle y
  | cons c t => simp [listContains, isPrefixOf_self_append]

theorem listContains_append (n x y : List Char) :
    listContains n (x ++ (n ++ y)) = true := by
  induction x with
  | nil => exact listContains_self n y
  | cons c t ih => simp [listContains, ih]

theorem strContains_parts (a n b : String) : strContains (a ++ n ++ b) n = true := by
  unfold strContains
  have hdata : (a ++ n ++ b).data = a.data ++ (n.data ++ b.data) := by simp
  rw [hdata]
  exact listContains_append n.data a.data b.data

theorem strContains_of_eq (hay a n b : String) (h : hay = a ++ n ++ b) :
    strContains hay n = true := by
  rw [h]
  exact strContains_parts a n b

theorem strContains_data (hay n : String) (x y : List Char)
    (h : hay.data = x ++ (n.data ++ y)) : strContains hay n = true := by
  unfold strContains
  rw [h]
  exact listContains_append n.data x y

theorem summarize_pct_eq (positions : List Position) :
    (summarize positions).total_pnl_pct =
      if (summarize positions).invested > 0 then
        (summarize positions).total_pnl / (summarize positions).invested * 100
      else 0 := rfl

/-! ### Claims -/

/-- C4: for every list of positions, `total_pnl_pct` equals
`total_pnl / invested * 100` when `invested > 0` and equals exactly `0`
whenever `invested ≤ 0`; the computation is total (the guard makes the
division-by-zero case unreachable). -/
theorem total_pnl_pct_guard (positions : List Position) :
    ((summarize positions).invested > 0 →
      (summarize positions).total_pnl_pct =
        (summarize positions).total_pnl / (summarize positions).invested * 100) ∧
    ((summarize positions).invested ≤ 0 →
      (summarize positions).total_pnl_pct = 0) := by
  constructor
  · intro h
    rw [summarize_pct_eq, if_pos h]
  · intro h
    rw [summarize_pct_eq, if_neg (not_lt.mpr h)]

theorem total_pnl_pct_guard_witness :
    ((summarize [⟨"A", 1, 2, 2, 1, 1⟩]).invested > 0 ∧
      (summarize [⟨"A", 1, 2, 2, 1, 1⟩]).total_pnl_pct =
        (summarize [⟨"A", 1, 2, 2, 1, 1⟩]).total_pnl /
          (summarize [⟨"A", 1, 2, 2, 1, 1⟩]).invested * 100) ∧
    ((summarize [⟨"B", 1, 2, 2, 3, 1⟩]).invested ≤ 0 ∧
      (summarize [⟨"B", 1, 2, 2, 3, 1⟩]).total_pnl_pct = 0) := by
  have h1 : (summarize [⟨"A", 1, 2, 2, 1, 1⟩]).invested > 0 := by
    norm_num [summarize]
  have h2 : (summarize [⟨"B", 1, 2, 2, 3, 1⟩]).invested ≤ 0 := by
    norm_num [summarize]
  exact ⟨⟨h1, (total_pnl_pct_guard _).1 h1⟩, ⟨h2, (total_pnl_pct_guard _).2 h2⟩⟩

/-- C5: for every non-empty list of positions the summary totals are the
sums of `market_value` and `unrealized_pl`, `invested` is their difference,
winners/losers count strictly positive/negative P&L; on the specification's
two-position example it gives 1500 / 50 / 1450 / 100∕29 ≈ +3.45% / 1 / 1. -/
theorem summarize_totals (positions : List Position) (hne : positions ≠ []) :
    (summarize positions).total_value =
      (positions.map (fun p => p.market_value)).sum ∧
    (summarize positions).total_pnl =
      (positions.map (fun p => p.unrealized_pl)).sum ∧
    (summarize positions).invested =
      (summarize positions).total_value - (summarize positions).total_pnl ∧
    (summarize positions).winners =
      (positions.filter (fun p => p.unrealized_pl > 0)).length ∧
    (summarize positions).losers =
      (positions.filter (fun p => p.unrealized_pl < 0)).length ∧
    summarize examplePositions = ⟨1500, 50, 1450, 100/29, 1, 1⟩ ∧
    |(summarize examplePositions).total_pnl_pct - 69/20| < 1/200 := by
  have hex : summarize examplePositions = ⟨1500, 50, 1450, 100/29, 1, 1⟩ := by
    simp [summarize, examplePositions]
    norm_num
  have hw : (summarize positions).winners =
      ((positions.map (fun p => p.unrealized_pl)).filter (fun x => x > 0)).length :=
    rfl
  have hl : (summarize positions).losers =
      ((positions.map (fun p => p.unrealized_pl)).filter (fun x => x < 0)).length :=
    rfl
  refine ⟨rfl, rfl, rfl, ?_, ?_, hex, ?_⟩
  · rw [hw, List.filter_map, List.length_map]
    rfl
  · rw [hl, List.filter_map, List.length_map]
    rfl
  · rw [hex]
    show |(100 : Rat)/29 - 69/20| < 1/200
    rw [abs_sub_lt_iff]
    constructor <;> norm_num

theorem summarize_totals_witness :
    examplePositions ≠ [] ∧
    (summarize examplePositions).total_value =
      (examplePositions.map (fun p => p.market_value)).sum := by
  have h : examplePositions ≠ [] := by simp [examplePositions]
  exact ⟨h, (summarize_totals examplePositions h).1⟩

/-- C6: on the empty position list the report text is exactly
`"No open positions."` and the aggregation arithmetic yields all-zero
summary fields; this is a normal result, not an error. -/
theorem analyze_portfolio_empty :
    analyze_portfolio [] = "No open positions." ∧
    summarize [] = ⟨0, 0, 0, 0, 0, 0⟩ := by
  constructor
  · rfl
  · simp [summarize]

/-- C7: `summarize` is invariant under relabelling the symbol strings:
two position lists with identical numeric fields position-by-position get
identical totals, percentage and winner/loser counts. -/
theorem summarize_relabel_invariant (l₁ l₂ : List Position)
    (h : l₁.map numericFields = l₂.map numericFields) :
    summarize l₁ = summarize l₂ := by
  have hmv : l₁.map (fun p => p.market_value) = l₂.map (fun p => p.market_value) := by
    have h2 := congrArg (List.map (fun t : Int × Rat × Rat × Rat × Rat => t.2.2.1)) h
    simpa [List.map_map, Function.comp, numericFields] using h2
  have hpl : l₁.map (fun p => p.unrealized_pl) = l₂.map (fun p => p.unrealized_pl) := by
    have h2 := congrArg (List.map (fun t : Int × Rat × Rat × Rat × Rat => t.2.2.2.1)) h
    simpa [List.map_map, Function.comp, numericFields] using h2
  simp only [summarize, hmv, hpl]

theorem summarize_relabel_invariant_witness :
    [Position.mk "AAA" 1 2 3 4 5].map numericFields =
      [Position.mk "BBB" 1 2 3 4 5].map numericFields ∧
    summarize [Position.mk "AAA" 1 2 3 4 5] =
      summarize [Position.mk "BBB" 1 2 3 4 5] :=
  ⟨rfl, summarize_relabel_invariant _ _ rfl⟩

/-- C1: when an order passes the allow-list, quantity and price checks but
its notional `qty * price` exceeds `MAX_POSITION_VALUE`, the buy order is
rejected with the notional-exceeded error and never submitted (no
`submit_order` effect), while the identical sell order is submitted to the
brokerage: the notional cap applies only to buys. -/
theorem notional_cap_applies_only_to_buys (ALLOWED : List String) (MAXSZ : Int)
    (MAXV : Rat) (fetch : String → Option Rat) (symbol : String) (qty : Int)
    (tif : String) (p : Rat)
    (hallow : validate_symbol ALLOWED (upper symbol) = true)
    (hqty : ¬ qty > MAXSZ)
    (hfetch : fetch (upper symbol) = some p) (hp : p ≠ 0)
    (hnotional : (qty : Rat) * p > MAXV) :
    place_order ALLOWED MAXSZ MAXV fetch symbol qty "buy" tif =
      (.notionalExceeded ("ERROR: Order value $" ++ fmtMoney ((qty : Rat) * p) ++
        " exceeds MAX_POSITION_VALUE $" ++ fmtMoney MAXV),
       [.getSnapshot (upper symbol)]) ∧
    place_order ALLOWED MAXSZ MAXV fetch symbol qty "sell" tif =
      (.submitted (upper symbol) qty "sell" (lower tif),
       [.getSnapshot (upper symbol),
        .submitOrder (upper symbol) qty "sell" (lower tif)]) := by
  have hbuy : lower "buy" = "buy" := by decide
  have hsell : lower "sell" ≠ "buy" := by decide
  have hsl : lower "sell" = "sell" := by decide
  constructor
  · simp [place_order, hallow, hqty, hfetch, hp, hbuy, hnotional]
  · simp [place_order, hallow, hqty, hfetch, hp, hsell, hsl]

theorem notional_cap_applies_only_to_buys_witness :
    place_order [] 1000 10000 (fun _ => some 200) "AAPL" 100 "buy" "day" =
      (.notionalExceeded ("ERROR: Order value $" ++
        fmtMoney (((100 : Int) : Rat) * 200) ++
        " exceeds MAX_POSITION_VALUE $" ++ fmtMoney 10000),
       [.getSnapshot (upper "AAPL")]) ∧
    place_order [] 1000 10000 (fun _ => some 200) "AAPL" 100 "sell" "day" =
      (.submitted (upper "AAPL") 100 "sell" (lower "day"),
       [.getSnapshot (upper "AAPL"),
        .submitOrder (upper "AAPL") 100 "sell" (lower "day")]) :=
  notional_cap_applies_only_to_buys [] 1000 10000 (fun _ => some 200) "AAPL"
    100 "day" 200 (by decide) (by decide) rfl (by decide) (by norm_num)

/-- C2: an order whose (uppercased) symbol is missing from a non-empty
allow-list is rejected with the "not in the allowed universe" error, the
error text contains that phrase, and the effect trace is empty: no
`get_snapshot` price fetch and no submission happen. -/
theorem place_order_disallowed_symbol (ALLOWED : List String) (MAXSZ : Int)
    (MAXV : Rat) (fetch : String → Option Rat) (symbol : String) (qty : Int)
    (side tif : String) (hne : ALLOWED ≠ []) (hmem : upper symbol ∉ ALLOWED) :
    place_order ALLOWED MAXSZ MAXV fetch symbol qty side tif =
      (.notAllowed ("ERROR: " ++ upper symbol ++
        " is not in the allowed universe (risk check failed)."), []) ∧
    strContains ("ERROR: " ++ upper symbol ++
      " is not in the allowed universe (risk check failed).")
      "not in the allowed universe" = true := by
  have hval : validate_symbol ALLOWED (upper symbol) = false := by
    have hie : ALLOWED.isEmpty = false := by simpa using hne
    simp [validate_symbol, hie]
    rw [upper_upper]
    exact hmem
  constructor
  · simp [place_order, hval]
  · have hsplit : (" is not in the allowed universe (risk check failed)." : String) =
        " is " ++ "not in the allowed universe" ++ " (risk check failed)." := by
      decide
    rw [hsplit, ← String.append_assoc, ← String.append_assoc]
    exact strContains_parts _ _ _

theorem place_order_disallowed_symbol_witness :
    (["AAPL"] : List String) ≠ [] ∧ upper "ZZZZ" ∉ (["AAPL"] : List String) ∧
    place_order ["AAPL"] 1000 10000 (fun _ => some 5) "ZZZZ" 10 "buy" "day" =
      (.notAllowed ("ERROR: " ++ upper "ZZZZ" ++
        " is not in the allowed universe (risk check failed)."), []) :=
  ⟨by decide, by decide,
    (place_order_disallowed_symbol ["AAPL"] 1000 10000 (fun _ => some 5)
      "ZZZZ" 10 "buy" "day" (by decide) (by decide)).1⟩

/-- C3 (counterexample): the claim "every order with
`qty > MAX_POSITION_SIZE` is rejected with an error containing
`exceeds MAX_POSITION_SIZE` regardless of the order's symbol" fails: with
allow-list `["AAPL"]`, the order (ZZZZ, qty 5000 > 1000, buy) is rejected
by the earlier allow-list check, and its error text does not contain
`exceeds MAX_POSITION_SIZE`. -/
theorem quantity_cap_needs_allowlist_first :
    ((5000 : Int) > 1000) ∧
    (place_order ["AAPL"] 1000 10000 (fun _ => some 1) "ZZZZ" 5000 "buy" "day").1 =
      .notAllowed "ERROR: ZZZZ is not in the allowed universe (risk check failed)." ∧
    strContains "ERROR: ZZZZ is not in the allowed universe (risk check failed)."
      "exceeds MAX_POSITION_SIZE" = false := by
  refine ⟨by decide, by decide, by decide⟩

/-- C3 (amended): every order that passes the allow-list check and has
`qty > MAX_POSITION_SIZE` is rejected with the quantity error — whose text
contains `exceeds MAX_POSITION_SIZE` — regardless of price: the effect
trace is empty, so no price is ever fetched. -/
theorem place_order_qty_cap (ALLOWED : List String) (MAXSZ : Int) (MAXV : Rat)
    (fetch : String → Option Rat) (symbol : String) (qty : Int) (side tif : String)
    (hallow : validate_symbol ALLOWED (upper symbol) = true)
    (hqty : qty > MAXSZ) :
    place_order ALLOWED MAXSZ MAXV fetch symbol qty side tif =
      (.qtyExceeded ("ERROR: qty=" ++ toString qty ++
        " exceeds MAX_POSITION_SIZE=" ++ toString MAXSZ), []) ∧
    strContains ("ERROR: qty=" ++ toString qty ++
      " exceeds MAX_POSITION_SIZE=" ++ toString MAXSZ)
      "exceeds MAX_POSITION_SIZE" = true := by
  constructor
  · simp [place_order, hallow, hqty]
  · apply strContains_data _ _
      ("ERROR: qty=".data ++ ((toString qty).data ++ " ".data))
      ("=".data ++ (toString MAXSZ).data)
    have hd : (" exceeds MAX_POSITION_SIZE=" : String).data =
        " ".data ++ ("exceeds MAX_POSITION_SIZE".data ++ "=".data) := by decide
    simp [String.data_append, hd]

theorem place_order_qty_cap_witness :
    validate_symbol ["AAPL"] (upper "AAPL") = true ∧ ((5000 : Int) > 1000) ∧
    place_order ["AAPL"] 1000 10000 (fun _ => some 5) "AAPL" 5000 "buy" "day" =
      (.qtyExceeded ("ERROR: qty=" ++ toString (5000 : Int) ++
        " exceeds MAX_POSITION_SIZE=" ++ toString (1000 : Int)), []) ∧
    strContains ("ERROR: qty=" ++ toString (5000 : Int) ++
      " exceeds MAX_POSITION_SIZE=" ++ toString (1000 : Int))
      "exceeds MAX_POSITION_SIZE" = true :=
  ⟨by decide, by decide,
    (place_order_qty_cap ["AAPL"] 1000 10000 (fun _ => some 5) "AAPL" 5000
      "buy" "day" (by decide) (by decide)).1,
    (place_order_qty_cap ["AAPL"] 1000 10000 (fun _ => some 5) "AAPL" 5000
      "buy" "day" (by decide) (by decide)).2⟩

/-- C8: when the universe file is absent or has only blank lines, the
loaded allow-list is empty, `validate_symbol` accepts every symbol, and
`place_order` never takes the allow-list rejection branch. -/
theorem empty_allowlist_admits_all (file : Option (List String))
    (hfile : file = none ∨ ∀ l ∈ file.getD [], strip l = "")
    (symbol : String) (MAXSZ : Int) (MAXV : Rat) (fetch : String → Option Rat)
    (qty : Int) (side tif : String) :
    validate_symbol (load_allowed_symbols file) symbol = true ∧
    ((place_order (load_allowed_symbols file) MAXSZ MAXV fetch
        symbol qty side tif).1).isNotAllowed = false := by
  have hempty : load_allowed_symbols file = [] := by
    cases file with
    | none => rfl
    | some lines =>
        rcases hfile with h | h
        · exact absurd h (by simp)
        · have hf : lines.filter (fun l => strip l ≠ "") = [] := by
            apply List.filter_eq_nil_iff.mpr
            intro a ha
            simp [h a ha]
          simp [load_allowed_symbols, hf]
          intro a ha
          exact h a ha
  have hval : ∀ s, validate_symbol (load_allowed_symbols file) s = true := by
    intro s
    simp [validate_symbol, hempty]
  refine ⟨hval symbol, ?_⟩
  simp only [place_order, hval (upper symbol)]
  split
  · simp_all
  · split
    · simp [POResult.isNotAllowed]
    · split
      · simp [POResult.isNotAllowed]
      · split
        · simp [POResult.isNotAllowed]
        · split
          · simp [POResult.isNotAllowed]
          · simp [POResult.isNotAllowed]

theorem empty_allowlist_admits_all_witness :
    ((none : Option (List String)) = none ∨
      ∀ l ∈ (none : Option (List String)).getD [], strip l = "") ∧
    validate_symbol (load_allowed_symbols none) "TSLA" = true ∧
    ((place_order (load_allowed_symbols none) 1000 10000 (fun _ => some 1)
        "TSLA" 1 "buy" "day").1).isNotAllowed = false :=
  ⟨Or.inl rfl,
    (empty_allowlist_admits_all none (Or.inl rfl) "TSLA" 1000 10000
      (fun _ => some 1) 1 "buy" "day").1,
    (empty_allowlist_admits_all none (Or.inl rfl) "TSLA" 1000 10000
      (fun _ => some 1) 1 "buy" "day").2⟩

/-- C9: past the allow-list and quantity checks, the price-unavailable
rejection fires if and only if the fetched snapshot price is `none` or
exactly `0` — a last trade at price 0 is treated like an absent price
(Python's `not price`), so the order is rejected instead of reaching the
notional cap. -/
theorem price_unavailable_iff (ALLOWED : List String) (MAXSZ : Int) (MAXV : Rat)
    (fetch : String → Option Rat) (symbol : String) (qty : Int) (side tif : String)
    (hallow : validate_symbol ALLOWED (upper symbol) = true)
    (hqty : ¬ qty > MAXSZ) :
    ((place_order ALLOWED MAXSZ MAXV fetch symbol qty side tif).1 =
        .priceUnavailable "ERROR: Could not fetch latest price") ↔
      (fetch (upper symbol) = none ∨ fetch (upper symbol) = some 0) := by
  cases hf : fetch (upper symbol) with
  | none => simp [place_order, hallow, hqty, hf]
  | some p =>
      by_cases hp : p = 0
      · subst hp
        simp [place_order, hallow, hqty, hf]
      · by_cases hside : lower side = "buy" ∧ (qty : Rat) * p > MAXV
        · simp [place_order, hallow, hqty, hf, hp, hside]
        · simp [place_order, hallow, hqty, hf, hp, hside]

theorem price_unavailable_iff_witness :
    validate_symbol [] (upper "AAPL") = true ∧ ¬ ((1 : Int) > 1000) ∧
    (place_order [] 1000 10000 (fun _ => some 0) "AAPL" 1 "buy" "day").1 =
      .priceUnavailable "ERROR: Could not fetch latest price" :=
  ⟨by decide, by decide,
    (price_unavailable_iff [] 1000 10000 (fun _ => some 0) "AAPL" 1 "buy" "day"
      (by decide) (by decide)).mpr (Or.inr rfl)⟩

/-- C10: `place_order` never rejects a non-positive quantity: any
`qty ≤ MAX_POSITION_SIZE` (including 0 and negatives) passes the quantity
check, and a buy at a positive price then has notional `qty * price ≤ 0`
below the (non-negative) cap, so the order is submitted to the brokerage. -/
theorem nonpositive_qty_submitted (ALLOWED : List String) (MAXSZ : Int) (MAXV : Rat)
    (fetch : String → Option Rat) (symbol : String) (qty : Int) (tif : String) (p : Rat)
    (hallow : validate_symbol ALLOWED (upper symbol) = true)
    (hqty : qty ≤ MAXSZ) (hq0 : qty ≤ 0)
    (hfetch : fetch (upper symbol) = some p) (hp : 0 < p) (hMAXV : 0 ≤ MAXV) :
    place_order ALLOWED MAXSZ MAXV fetch symbol qty "buy" tif =
      (.submitted (upper symbol) qty "buy" (lower tif),
        [.getSnapshot (upper symbol),
         .submitOrder (upper symbol) qty "buy" (lower tif)]) := by
  have hbuy : lower "buy" = "buy" := by decide
  have hnot : ¬ ((qty : Rat) * p > MAXV) := by
    have hq0q : (qty : Rat) ≤ 0 := by exact_mod_cast hq0
    have hmul : (qty : Rat) * p ≤ 0 := mul_nonpos_iff.mpr (Or.inr ⟨hq0q, hp.le⟩)
    exact not_lt.mpr (hmul.trans hMAXV)
  have hp0 : p ≠ 0 := ne_of_gt hp
  simp [place_order, hallow, not_lt.mpr hqty, hfetch, hp0, hbuy, hnot]

theorem nonpositive_qty_submitted_witness :
    place_order [] 1000 10000 (fun _ => some 5) "AAPL" (-3) "buy" "day" =
      (.submitted (upper "AAPL") (-3) "buy" (lower "day"),
        [.getSnapshot (upper "AAPL"),
         .submitOrder (upper "AAPL") (-3) "buy" (lower "day")]) :=
  nonpositive_qty_submitted [] 1000 10000 (fun _ => some 5) "AAPL" (-3) "day" 5
    (by decide) (by decide) (by decide) rfl (by decide) (by decide)

end AlpacaMCP
